import Mathlib

/-!
Verification of the core of `nunulk/running_tracker` (`src/domain/fitbit.rs`):
the TCX activity-log summarizer (heart-rate statistics and per-kilometer
splits), the activity selector, and the OAuth2 token lifecycle with its
file-backed store.  Rust code is embedded shallowly: machine integers become
`ℕ`/`ℤ` (no overflow is reachable in the verified statements), `f64`
distances become exact rationals (the only float operations performed on
them, `!=` and `% 1000.0 == 0.0`, are exact on representable values),
panics become `none`, and the token file becomes an explicit `List Char`
state threaded through the functions.
-/

namespace RunningTracker

namespace activity

/-- One TCX trackpoint (fitbit.rs:292-297): heart rate in bpm and cumulative
distance in meters.  The source stores `distance_meters : f64`; it is
embedded as an exact rational. -/
structure Trackpoint where
  heart_rate_bpm : ℕ
  distance_meters : ℚ
deriving DecidableEq

/-- The `Track` element (fitbit.rs:299-303). -/
structure Trackpoints where
  trackpoint : List Trackpoint
deriving DecidableEq

/-- The `Lap` element (fitbit.rs:305-309). -/
structure Lap where
  track : Trackpoints
deriving DecidableEq

/-- One TCX `Activity` element (fitbit.rs:311-316); the lap may be absent. -/
structure Activity where
  id : String
  lap : Option Lap
deriving DecidableEq

/-- The `Activities` element (fitbit.rs:318-322). -/
structure Activities where
  activity : List Activity
deriving DecidableEq

/-- The parsed TCX document root (fitbit.rs:324-328). -/
structure TrainingCenterDatabase where
  activities : Activities
deriving DecidableEq

/-- Result record of the heart-rate summarizer (fitbit.rs:330-335). -/
structure HeartRateSummary where
  average : ℕ
  max : ℕ
  details : List (String × ℕ)
deriving DecidableEq

/-- Result record of `collect_summary` (fitbit.rs:337-340). -/
structure RunningActivitySummary where
  split_time_summary : List ℕ
  heart_rate_summary : HeartRateSummary
deriving DecidableEq

/-- Kilometer-crossing test on one cumulative distance: the guard
`*d != 0.0 && d % 1000.0 == 0.0` at fitbit.rs:376.  IEEE-754 `fmod` is
exact, so for a finite double `d` the test `d % 1000.0 == 0.0` holds iff
`d` is an integer multiple of 1000; on the rational embedding that is
`d.den = 1 ∧ 1000 ∣ d.num`. -/
def kmCross (d : ℚ) : Bool :=
  d != 0 && (d.den == 1 && d.num % 1000 == 0)

/-- Loop of `create_split_time_summary` (fitbit.rs:370-387): `n` is the
`enumerate` counter and `acc` the `split_seconds` vector built so far.  The
source takes the previous crossing position to be `0` when no split was
recorded yet (`i == 0`) and `split_seconds.iter().sum()` otherwise; the sum
of the empty vector is `0`, so both cases are `acc.sum`.  The subtraction
`n as u32 - prev_split` never underflows (`acc.sum` is the index of the
previous crossing, which is below `n`), so `ℕ` subtraction is faithful. -/
def splitLoop : List ℚ → ℕ → List ℕ → List ℕ
  | [], _, acc => acc
  | d :: ds, n, acc =>
    if kmCross d then splitLoop ds (n + 1) (acc ++ [n - acc.sum])
    else splitLoop ds (n + 1) acc

/-- The function `create_split_time_summary` (fitbit.rs:370-387). -/
def create_split_time_summary (distance_meters : List ℚ) : List ℕ :=
  splitLoop distance_meters 0 []

/-- Bucket label assigned to one heart-rate sample: the `match` arms at
fitbit.rs:394-398, checked in source order. -/
def bucketOf (r : ℕ) : String :=
  if r < 115 then "<115"
  else if 115 ≤ r ∧ r < 150 then "-150"
  else ">150"

/-- One iteration of the `details` accumulation (fitbit.rs:400-407): find
the bucket by label; if present, replace the entry at its first position by
one with an incremented count (`details[index] = (e.0.clone(), e.1 + 1)`),
else push `(range, 1)`.  `List.findIdx` stands for the source's
`position(..).unwrap()`, which cannot fail because `find` succeeded. -/
def bumpBucket (details : List (String × ℕ)) (range : String) : List (String × ℕ) :=
  match details.find? (fun d => d.1 == range) with
  | some e => details.set (details.findIdx (fun d => d.1 == range)) (e.1, e.2 + 1)
  | none => details ++ [(range, 1)]

/-- Structural-recursion form of `bumpBucket`: replace the first entry with
the matching label, or append a fresh one (proved equal below). -/
def bumpRec : List (String × ℕ) → String → List (String × ℕ)
  | [], range => [(range, 1)]
  | d :: ds, range =>
    if d.1 = range then (d.1, d.2 + 1) :: ds else d :: bumpRec ds range

/-- The full `details` table of a sample sequence (the `for rate in
heart_rates` loop at fitbit.rs:393-408). -/
def collectDetails (heart_rates : List ℕ) : List (String × ℕ) :=
  heart_rates.foldl (fun ds r => bumpBucket ds (bucketOf r)) []

/-- The function `create_heart_rate_summary` (fitbit.rs:389-414), with the
`unwrap` of `heart_rates.iter().max()` made explicit: `none` models the
panic on an empty input.  The average `(sum as f32 / len as f32) as u32`
equals `⌊sum / len⌋` whenever `sum < 2^24` (the range on which `f32`
represents the operands exactly and truncated division agrees with the
exact floor; bpm sums stay far below it), so it is embedded as `ℕ`
division. -/
def create_heart_rate_summary (heart_rates : List ℕ) : Option HeartRateSummary :=
  match heart_rates.max? with
  | none => none
  | some m => some ⟨heart_rates.sum / heart_rates.length, m, collectDetails heart_rates⟩

/-- The function `collect_summary` (fitbit.rs:342-368) applied to an
already-parsed document (XML decoding itself is outside the core).  The
outer `none` models a panic: `activity.get(0).unwrap()` on an empty
activity list, or the summarizer's panic on an empty trackpoint list.
`some none` is the explicit absent-lap outcome (`return None`). -/
def collect_summary (database : TrainingCenterDatabase) :
    Option (Option RunningActivitySummary) :=
  match database.activities.activity.head? with
  | none => none
  | some a0 =>
    match a0.lap with
    | none => some none
    | some lap =>
      let trackpoint := lap.track.trackpoint
      let split_time_summary := create_split_time_summary (trackpoint.map (·.distance_meters))
      match create_heart_rate_summary (trackpoint.map (·.heart_rate_bpm)) with
      | none => none
      | some heart_rate_summary => some (some ⟨split_time_summary, heart_rate_summary⟩)

/-- Crossing positions of a distance sequence: the zero-based `enumerate`
indices at which `kmCross` fires, in order. -/
def crossIdxs : ℕ → List ℚ → List ℕ
  | _, [] => []
  | n, d :: ds => if kmCross d then n :: crossIdxs (n + 1) ds else crossIdxs (n + 1) ds

/-- Differences of a sequence of positions against a running previous
value: `chunkDiffs p [n₁, n₂, …] = [n₁ - p, n₂ - n₁, …]`. -/
def chunkDiffs (prev : ℕ) : List ℕ → List ℕ
  | [] => []
  | n :: ns => (n - prev) :: chunkDiffs n ns

/-- Spec-side predicate for a split boundary: the cumulative distance is a
positive exact multiple of 1000 meters. -/
def posKmMultiple (d : ℚ) : Prop := 0 < d ∧ ∃ k : ℤ, d = 1000 * k

instance : DecidablePred posKmMultiple := fun d =>
  decidable_of_iff (0 < d ∧ (d.den = 1 ∧ d.num % 1000 = 0))
    (and_congr_right fun _ => by
      constructor
      · rintro ⟨h1, h2⟩
        obtain ⟨k, hk⟩ := Int.dvd_of_emod_eq_zero h2
        refine ⟨k, ?_⟩
        have hd : (d.num : ℚ) = d := (Rat.den_eq_one_iff d).1 h1
        rw [← hd, hk]
        push_cast
        ring
      · rintro ⟨k, rfl⟩
        have hcast : ((1000 : ℚ) * (k : ℚ)) = ((1000 * k : ℤ) : ℚ) := by push_cast; ring
        rw [hcast, Rat.den_intCast, Rat.num_intCast]
        exact ⟨rfl, Int.mul_emod_right 1000 k⟩)

/-- Spec-side first-occurrence ordering of a label sequence, accumulated
left to right. -/
def firstSeenAux : List String → List String → List String
  | acc, [] => acc
  | acc, l :: ls => if l ∈ acc then firstSeenAux acc ls else firstSeenAux (acc ++ [l]) ls

/-- Labels of a sequence in order of first occurrence. -/
def firstSeen (ls : List String) : List String := firstSeenAux [] ls

/-- Count recorded for a label in a details table (0 when absent). -/
def bucketCount (details : List (String × ℕ)) (l : String) : ℕ :=
  ((details.find? (fun d => d.1 == l)).map Prod.snd).getD 0

end activity

/-- The summarization step of `fetch_latest_run_activity` (fitbit.rs:169):
`activity::collect_summary(&xml).expect("Failed to parse activity log")`.
`none` models a panic — in particular the caller unwraps the absent-lap
outcome `None` with `expect`. -/
def run_activity_summary (database : activity.TrainingCenterDatabase) :
    Option activity.RunningActivitySummary :=
  match activity.collect_summary database with
  | none => none
  | some none => none
  | some (some s) => some s

/-- A Fitbit activity-list entry (fitbit.rs:49-59); `distance : Option ℚ`
embeds `Option<f32>`. -/
structure Activity where
  logId : ℕ
  activityName : String
  activityTypeId : ℕ
  startTime : String
  distance : Option ℚ
  duration : ℕ
  calories : ℕ
deriving DecidableEq

/-- The activity selection step of `fetch_latest_run_activity`
(fitbit.rs:164): `activities.iter().find(|a| a.activityName == "Run")`.
The source fixes the target category to `"Run"` at the call site; the
comparison is Rust `String` equality — exact and case-sensitive — embedded
as `String` equality.  The input list is consumed read-only (`iter()`), and
the embedding is a pure function. -/
def select_run_activity (activities : List Activity) (category : String) : Option Activity :=
  activities.find? (fun a => a.activityName == category)

/-! ### Token persistence (fitbit.rs:261-281) and token lifecycle (fitbit.rs:115-141)

The credentials file is modelled as its content, a `List Char` (`none` for
an absent file).  `serde_json::to_string_pretty` / `serde_json::from_reader`
on the three-field `AuthorizationTokens` record are modelled by a concrete
serializer and a concrete parser for the exact pretty-printed shape; like
`from_reader`, the parser only succeeds when the document ends with the
record (trailing bytes are an error; `from_reader` additionally tolerates
trailing whitespace, which no statement below relies on).  The
`expires_at : DateTime<Utc>` field becomes an integer timestamp in seconds,
rendered in the file as a quoted decimal literal standing in for chrono's
quoted ISO-8601 text — only its nature as a content-dependent byte string
matters here. -/

/-- A double-quote character. -/
def quoteC : Char := Char.ofNat 34

/-- An opening curly brace. -/
def lbraceC : Char := Char.ofNat 123

/-- A closing curly brace. -/
def rbraceC : Char := Char.ofNat 125

/-- Decimal digit character. -/
def decDigit (d : ℕ) : Char := Char.ofNat (48 + d)

/-- Decimal rendering of a natural number, with explicit fuel so that the
definition is structural (the fuel `n + 1` always suffices). -/
def natCharsAux : ℕ → ℕ → List Char
  | 0, _ => []
  | fuel + 1, n =>
    if n < 10 then [decDigit n] else natCharsAux fuel (n / 10) ++ [decDigit (n % 10)]

/-- Decimal rendering of a natural number. -/
def natChars (n : ℕ) : List Char := natCharsAux (n + 1) n

/-- Decimal rendering of an integer. -/
def intChars (z : ℤ) : List Char :=
  if z < 0 then '-' :: natChars z.natAbs else natChars z.natAbs

/-- Value of a decimal digit string. -/
def charsVal (cs : List Char) : ℕ := cs.foldl (fun a c => 10 * a + (c.toNat - 48)) 0

/-- Value of a decimal integer string (optional leading minus sign). -/
def charsToInt : List Char → ℤ
  | [] => 0
  | c :: cs => if c = '-' then -(charsVal cs : ℤ) else (charsVal (c :: cs) : ℤ)

/-- Consume an expected literal from the front of the input. -/
def dropLit : List Char → List Char → Option (List Char)
  | [], s => some s
  | _ :: _, [] => none
  | c :: cs, x :: xs => if c = x then dropLit cs xs else none

/-- Consume characters up to and including the next double quote. -/
def takeStr : List Char → Option (List Char × List Char)
  | [] => none
  | c :: cs =>
    if c = quoteC then some ([], cs) else (takeStr cs).map (fun p => (c :: p.1, p.2))

/-- The persisted token record (fitbit.rs:30-35). -/
structure AuthorizationTokens where
  access_token : String
  refresh_token : String
  expires_at : ℤ
deriving DecidableEq

/-- A token-endpoint response body (fitbit.rs:23-28). -/
structure AuthorizationResponse where
  access_token : String
  refresh_token : String
  expires_in : ℤ
deriving DecidableEq

/-- Serialized fragment up to and including the opening quote of the
`access_token` value. -/
def jsonPre : List Char :=
  [lbraceC, '\n', ' ', ' ', quoteC] ++ "access_token".data ++ [quoteC, ':', ' ', quoteC]

/-- Serialized fragment between the `access_token` and `refresh_token`
values (after the closing quote of the former, through the opening quote of
the latter). -/
def jsonMid1 : List Char :=
  [',', '\n', ' ', ' ', quoteC] ++ "refresh_token".data ++ [quoteC, ':', ' ', quoteC]

/-- Serialized fragment between the `refresh_token` and `expires_at`
values. -/
def jsonMid2 : List Char :=
  [',', '\n', ' ', ' ', quoteC] ++ "expires_at".data ++ [quoteC, ':', ' ', quoteC]

/-- Serialized fragment after the closing quote of the `expires_at`
value. -/
def jsonSuf : List Char := ['\n', rbraceC]

/-- The pretty-printed JSON record `serde_json::to_string_pretty(tokens)`
(fitbit.rs:279). -/
def serializeTokens (tokens : AuthorizationTokens) : List Char :=
  jsonPre ++ tokens.access_token.data ++ [quoteC] ++
    jsonMid1 ++ tokens.refresh_token.data ++ [quoteC] ++
    jsonMid2 ++ intChars tokens.expires_at ++ [quoteC] ++ jsonSuf

/-- The deserialization `serde_json::from_reader` (fitbit.rs:267): succeeds
exactly on a full record occupying the whole input. -/
def parseTokens (s : List Char) : Option AuthorizationTokens := do
  let s1 ← dropLit jsonPre s
  let p1 ← takeStr s1
  let s2 ← dropLit jsonMid1 p1.2
  let p2 ← takeStr s2
  let s3 ← dropLit jsonMid2 p2.2
  let p3 ← takeStr s3
  let s4 ← dropLit jsonSuf p3.2
  if s4 = [] then some ⟨⟨p1.1⟩, ⟨p2.1⟩, charsToInt p3.1⟩ else none

/-- The function `load_tokens` (fitbit.rs:261-271): `none` when the file is
absent or its content does not deserialize. -/
def load_tokens (file : Option (List Char)) : Option AuthorizationTokens :=
  match file with
  | none => none
  | some content => parseTokens content

/-- The function `store_tokens` (fitbit.rs:273-281).  An existing file is
opened with `read(true).write(true)` — *without truncation* — and the
serialized record is written from position 0, so any previous bytes beyond
the new record's length survive; an absent file is created fresh. -/
def store_tokens (file : Option (List Char)) (tokens : AuthorizationTokens) : List Char :=
  match file with
  | none => serializeTokens tokens
  | some old => serializeTokens tokens ++ old.drop (serializeTokens tokens).length

/-- The constructor `AuthorizationTokens::from_authorization_response`
(fitbit.rs:68-77): `expires_at = Utc::now() + Duration::seconds(expires_in)`. -/
def from_authorization_response (now : ℤ) (response : AuthorizationResponse) :
    AuthorizationTokens :=
  ⟨response.access_token, response.refresh_token, now + response.expires_in⟩

/-- One outbound OAuth2 network request. -/
inductive NetCall where
  | refreshCall (refresh_token : String)
  | authorizeCall (code : String)
deriving DecidableEq

/-- External collaborators of `access_token`, fixed for one invocation: the
wall clock, the outcome the token endpoint would give a refresh request
(`Except.error` = transport/HTTP error, `Except.ok none` = upstream
rejection), the code the user would type, and the outcome of an
authorization-code exchange. -/
structure TokenEnv where
  now : ℤ
  refreshResult : Except Unit (Option AuthorizationResponse)
  userCode : String
  authorizeResult : Except Unit AuthorizationResponse

/-- Observable outcome of `access_token`: the returned
`Result<Option<String>>`, the credentials file afterwards, and the network
requests issued. -/
structure AccessTokenOutcome where
  result : Except Unit (Option String)
  file : Option (List Char)
  calls : List NetCall

/-- The method `FitbitApi::access_token` (fitbit.rs:115-141), the
`get_valid_token` entry point: reuse a stored token when
`expires_at > now + 60s`, otherwise refresh and persist; with no usable
stored token, prompt for a code and exchange it (the source trims the line
read from stdin; `userCode` stands for the trimmed code). -/
def access_token (env : TokenEnv) (file : Option (List Char)) : AccessTokenOutcome :=
  match load_tokens file with
  | some tokens =>
    if env.now + 60 < tokens.expires_at then
      ⟨Except.ok (some tokens.access_token), file, []⟩
    else
      match env.refreshResult with
      | Except.error _ => ⟨Except.error (), file, [NetCall.refreshCall tokens.refresh_token]⟩
      | Except.ok none => ⟨Except.ok none, file, [NetCall.refreshCall tokens.refresh_token]⟩
      | Except.ok (some res) =>
        let tokens2 := from_authorization_response env.now res
        ⟨Except.ok (some tokens2.access_token), some (store_tokens file tokens2),
          [NetCall.refreshCall tokens.refresh_token]⟩
  | none =>
    match env.authorizeResult with
    | Except.error _ => ⟨Except.error (), file, [NetCall.authorizeCall env.userCode]⟩
    | Except.ok res =>
      let tokens := from_authorization_response env.now res
      ⟨Except.ok (some tokens.access_token), some (store_tokens file tokens),
        [NetCall.authorizeCall env.userCode]⟩

/-! ### Concrete demonstration inputs -/

/-- A concrete heart-rate trace with one sample in each bucket. -/
def demoRates : List ℕ := [100, 120, 160]

/-- A concrete stored token that is still fresh at `now = 50`. -/
def demoStoredTokens : AuthorizationTokens :=
  ⟨"stored-access-token-0001", "stored-refresh-token-0001", 5000⟩

/-- An environment whose clock reads 50 and whose network, were it
consulted, would fail. -/
def freshEnv : TokenEnv := ⟨50, Except.error (), "", Except.error ()⟩

/-- A stored token that has expired, serialized with long token strings. -/
def staleLongTokens : AuthorizationTokens :=
  ⟨"old-access-aaaaaaaaaaaaaaaaaaaaaaaaaaaaaa", "old-refresh-bbbbbbbbbbbbbbbbbbbbbbbbbb", 100⟩

/-- A refresh response whose token strings are much shorter than
`staleLongTokens`'s. -/
def shortResponse : AuthorizationResponse := ⟨"na", "nr", 900⟩

/-- An environment (clock at 50) whose refresh endpoint answers with
`shortResponse`. -/
def refreshEnvShort : TokenEnv := ⟨50, Except.ok (some shortResponse), "", Except.error ()⟩

/-- A stored token that has expired, with short token strings. -/
def staleShortTokens : AuthorizationTokens := ⟨"oa", "ob", 100⟩

/-- A refresh response whose token strings are longer than
`staleShortTokens`'s. -/
def longResponse : AuthorizationResponse :=
  ⟨"new-access-cccccccccccccccccccc", "new-refresh-dddddddddddddddddddd", 900⟩

/-- An environment (clock at 50) whose refresh endpoint answers with
`longResponse`. -/
def refreshEnvLong : TokenEnv := ⟨50, Except.ok (some longResponse), "", Except.error ()⟩

/-- A concrete non-running activity-list entry. -/
def demoWalk : Activity := ⟨1, "Walk", 90013, "2024-01-01T08:00:00", none, 100, 10⟩

/-- The first running entry of the demonstration list. -/
def demoRun : Activity := ⟨2, "Run", 90009, "2024-01-02T08:00:00", some 5000, 200, 20⟩

/-- A second, older running entry. -/
def demoRun2 : Activity := ⟨3, "Run", 90009, "2024-01-03T08:00:00", some 3000, 150, 15⟩

/-! ### Split-time summary: structure of the loop -/

namespace activity

theorem chunkDiffs_length (ns : List ℕ) : ∀ p, (chunkDiffs p ns).length = ns.length := by
  induction ns with
  | nil => intro p; rfl
  | cons n ns ih => intro p; simp [chunkDiffs, ih]

theorem crossIdxs_length (ds : List ℚ) :
    ∀ n, (crossIdxs n ds).length = ds.countP kmCross := by
  induction ds with
  | nil => intro n; rfl
  | cons d ds ih =>
    intro n
    cases hc : kmCross d <;> simp [crossIdxs, hc, ih, List.countP_cons]

theorem splitLoop_eq (ds : List ℚ) :
    ∀ n acc, acc.sum ≤ n →
      splitLoop ds n acc = acc ++ chunkDiffs acc.sum (crossIdxs n ds) := by
  induction ds with
  | nil =>
    intro n acc _
    simp [splitLoop, crossIdxs, chunkDiffs]
  | cons d ds ih =>
    intro n acc h
    cases hc : kmCross d with
    | false => simp [splitLoop, crossIdxs, hc, ih (n + 1) acc (by omega)]
    | true =>
      have hsum : (acc ++ [n - acc.sum]).sum = n := by
        simp [List.sum_append]
        omega
      simp only [splitLoop, crossIdxs, hc, if_true]
      rw [ih (n + 1) (acc ++ [n - acc.sum]) (by omega), hsum, chunkDiffs]
      simp

theorem create_split_eq_chunkDiffs (ds : List ℚ) :
    create_split_time_summary ds = chunkDiffs 0 (crossIdxs 0 ds) := by
  simpa using splitLoop_eq ds 0 [] (by simp)

theorem chunkDiffs_crossIdxs_sum (ds : List ℚ) :
    ∀ n p, p ≤ n → (chunkDiffs p (crossIdxs n ds)).sum + p ≤ n + ds.length := by
  induction ds with
  | nil =>
    intro n p h
    simp [crossIdxs, chunkDiffs]
    omega
  | cons d ds ih =>
    intro n p h
    cases hc : kmCross d with
    | false =>
      have := ih (n + 1) p (by omega)
      simp only [crossIdxs, hc, Bool.false_eq_true, if_false, List.length_cons]
      omega
    | true =>
      have := ih (n + 1) n (by omega)
      simp only [crossIdxs, hc, if_true, chunkDiffs, List.sum_cons, List.length_cons]
      omega

theorem den_num_iff (d : ℚ) :
    (d.den = 1 ∧ d.num % 1000 = 0) ↔ ∃ k : ℤ, d = 1000 * k := by
  constructor
  · rintro ⟨h1, h2⟩
    obtain ⟨k, hk⟩ := Int.dvd_of_emod_eq_zero h2
    refine ⟨k, ?_⟩
    have hd : (d.num : ℚ) = d := (Rat.den_eq_one_iff d).1 h1
    rw [← hd, hk]
    push_cast
    ring
  · rintro ⟨k, rfl⟩
    have hcast : ((1000 : ℚ) * (k : ℚ)) = ((1000 * k : ℤ) : ℚ) := by push_cast; ring
    rw [hcast, Rat.den_intCast, Rat.num_intCast]
    exact ⟨rfl, Int.mul_emod_right 1000 k⟩

theorem kmCross_iff (d : ℚ) :
    kmCross d = true ↔ d ≠ 0 ∧ ∃ k : ℤ, d = 1000 * k := by
  rw [← den_num_iff]
  simp [kmCross, and_assoc]

theorem kmCross_eq_posKmMultiple (d : ℚ) (h0 : 0 ≤ d) :
    kmCross d = true ↔ posKmMultiple d := by
  rw [kmCross_iff]
  unfold posKmMultiple
  constructor
  · rintro ⟨hne, k, hk⟩
    exact ⟨lt_of_le_of_ne h0 (Ne.symm hne), k, hk⟩
  · rintro ⟨hlt, k, hk⟩
    exact ⟨ne_of_gt hlt, k, hk⟩

end activity

end RunningTracker

namespace RunningTracker

open activity

/-! ### Split-time summary: settled properties -/

/-- C1, counterexample: on the cumulative-distance trace
`[500, 1000, 1600, 2000]` the split summary produced by the code is
`[1, 2]`, not `[2, 2]` as claimed — the first crossing's recorded count is
the crossing's zero-based sample index, one less than the number of samples
from the start of the sequence through the crossing. -/
theorem split_example_is_one_two :
    create_split_time_summary [(500 : ℚ), 1000, 1600, 2000] = [1, 2] ∧
      create_split_time_summary [(500 : ℚ), 1000, 1600, 2000] ≠ [2, 2] :=
  ⟨by decide, by decide⟩

/-- C1 (amended): the split summary lists, for each sample whose cumulative
distance is a nonzero exact multiple of 1000 meters, the difference between
its zero-based index and the previous such sample's index; the first entry
is the first crossing's zero-based index itself (the number of inter-sample
steps from the start, one less than the number of samples elapsed from the
start through the crossing).  On `[500, 1000, 1600, 2000]` this gives
`[1, 2]`. -/
theorem split_summary_index_diffs (ds : List ℚ) :
    create_split_time_summary ds = chunkDiffs 0 (crossIdxs 0 ds) ∧
      create_split_time_summary [(500 : ℚ), 1000, 1600, 2000] = [1, 2] :=
  ⟨create_split_eq_chunkDiffs ds, by decide⟩

/-- C6: for distance traces with nonnegative cumulative distances (the only
physically possible ones; the code itself tests `d != 0.0`, which coincides
with positivity on nonnegative values), the split summary has exactly one
entry per sample whose cumulative distance is a positive exact multiple of
1000 — in particular it is empty, with no error, when no sample lands on a
kilometer boundary — and the sum of the recorded elapsed counts never
exceeds the number of samples. -/
theorem split_summary_length_sum (ds : List ℚ) (hpos : ∀ d ∈ ds, 0 ≤ d) :
    (create_split_time_summary ds).length
        = ds.countP (fun d => decide (posKmMultiple d)) ∧
      (create_split_time_summary ds).sum ≤ ds.length := by
  constructor
  · rw [create_split_eq_chunkDiffs, chunkDiffs_length, crossIdxs_length]
    apply List.countP_congr
    intro d hd
    rw [decide_eq_true_iff]
    exact kmCross_eq_posKmMultiple d (hpos d hd)
  · rw [create_split_eq_chunkDiffs]
    have := chunkDiffs_crossIdxs_sum ds 0 0 (le_refl 0)
    omega

/-- Witness for C6 on the concrete trace `[500, 1000, 1500, 3000]`: two
samples sit on kilometer boundaries, the summary has two entries, and
their sum (3) is at most the sample count (4). -/
theorem split_summary_length_sum_witness :
    (∀ d ∈ [(500 : ℚ), 1000, 1500, 3000], 0 ≤ d) ∧
      ((create_split_time_summary [(500 : ℚ), 1000, 1500, 3000]).length
          = List.countP (fun d => decide (posKmMultiple d)) [(500 : ℚ), 1000, 1500, 3000] ∧
        (create_split_time_summary [(500 : ℚ), 1000, 1500, 3000]).sum
          ≤ ([(500 : ℚ), 1000, 1500, 3000] : List ℚ).length) :=
  ⟨by decide, split_summary_length_sum _ (by decide)⟩

end RunningTracker

namespace RunningTracker

namespace activity

/-! ### Heart-rate summary: structure of the details loop -/

theorem bumpBucket_eq_rec (range : String) :
    ∀ ds, bumpBucket ds range = bumpRec ds range := by
  intro ds
  induction ds with
  | nil => rfl
  | cons d ds ih =>
    by_cases h : d.1 = range
    · simp [bumpBucket, bumpRec, List.find?_cons, List.findIdx_cons, h]
    · cases hf : ds.find? (fun x => x.1 == range) with
      | none =>
        have hrec : bumpRec ds range = ds ++ [(range, 1)] := by
          rw [← ih]; simp [bumpBucket, hf]
        simp [bumpBucket, bumpRec, List.find?_cons, h, hf, hrec]
      | some e =>
        have hrec : bumpRec ds range
            = ds.set (ds.findIdx (fun d => d.1 == range)) (e.1, e.2 + 1) := by
          rw [← ih]; simp [bumpBucket, hf]
        have hb : (d.1 == range) = false := by simp [h]
        simp [bumpBucket, bumpRec, List.find?_cons, List.findIdx_cons, h, hb, hf,
          List.set_cons_succ, hrec]

theorem bumpRec_map_fst (range : String) :
    ∀ ds : List (String × ℕ), (bumpRec ds range).map Prod.fst =
      if range ∈ ds.map Prod.fst then ds.map Prod.fst
      else ds.map Prod.fst ++ [range] := by
  intro ds
  induction ds with
  | nil => simp [bumpRec]
  | cons d ds ih =>
    by_cases h : d.1 = range
    · simp [bumpRec, h]
    · by_cases hm : range ∈ ds.map Prod.fst <;>
        simp [bumpRec, h, ih, hm, Ne.symm h]

theorem bumpRec_count_same (range : String) :
    ∀ ds, bucketCount (bumpRec ds range) range = bucketCount ds range + 1 := by
  intro ds
  induction ds with
  | nil => simp [bumpRec, bucketCount]
  | cons d ds ih =>
    by_cases h : d.1 = range
    · simp [bumpRec, bucketCount, List.find?_cons, h]
    · simpa [bumpRec, bucketCount, List.find?_cons, h] using ih

theorem bumpRec_count_other (range l : String) (hne : l ≠ range) :
    ∀ ds, bucketCount (bumpRec ds range) l = bucketCount ds l := by
  intro ds
  induction ds with
  | nil => simp [bumpRec, bucketCount, List.find?_cons, Ne.symm hne]
  | cons d ds ih =>
    by_cases h : d.1 = range
    · simp [bumpRec, bucketCount, List.find?_cons, h, Ne.symm hne]
    · by_cases h2 : d.1 = l
      · simp [bumpRec, bucketCount, List.find?_cons, h, h2, hne]
      · simpa [bumpRec, bucketCount, List.find?_cons, h, h2] using ih

theorem collectDetails_loop (hrs : List ℕ) :
    ∀ ds₀ : List (String × ℕ),
      ((hrs.foldl (fun ds r => bumpBucket ds (bucketOf r)) ds₀).map Prod.fst
          = firstSeenAux (ds₀.map Prod.fst) (hrs.map bucketOf)) ∧
        ∀ l, bucketCount (hrs.foldl (fun ds r => bumpBucket ds (bucketOf r)) ds₀) l
          = bucketCount ds₀ l + hrs.countP (fun r => bucketOf r == l) := by
  induction hrs with
  | nil => intro ds₀; simp [firstSeenAux]
  | cons r hrs ih =>
    intro ds₀
    rw [List.foldl_cons, bumpBucket_eq_rec]
    obtain ⟨ih1, ih2⟩ := ih (bumpRec ds₀ (bucketOf r))
    constructor
    · rw [ih1, bumpRec_map_fst, List.map_cons, firstSeenAux]
      by_cases hm : bucketOf r ∈ ds₀.map Prod.fst <;> simp [hm]
    · intro l
      rw [ih2 l, List.countP_cons]
      by_cases he : bucketOf r = l
      · rw [he, bumpRec_count_same]
        simp [he]
        omega
      · rw [bumpRec_count_other _ _ (Ne.symm he)]
        simp [he]

/-! ### Heart-rate summary: the maximum -/

theorem foldl_max_mem (as : List ℕ) : ∀ a, as.foldl max a ∈ a :: as := by
  induction as with
  | nil => intro a; simp
  | cons b bs ih =>
    intro a
    have h := ih (max a b)
    rcases max_choice a b with hm | hm <;> rw [hm] at h <;>
      rcases List.mem_cons.1 h with h1 | h1 <;> simp [List.foldl_cons, hm, h1]

theorem le_foldl_max (as : List ℕ) : ∀ a, a ≤ as.foldl max a := by
  induction as with
  | nil => intro a; simp
  | cons b bs ih =>
    intro a
    exact le_trans (le_max_left a b) (ih (max a b))

theorem foldl_max_le (as : List ℕ) : ∀ a x, x ∈ as → x ≤ as.foldl max a := by
  induction as with
  | nil => intro a x hx; cases hx
  | cons b bs ih =>
    intro a x hx
    rcases List.mem_cons.1 hx with h1 | h1
    · rw [h1, List.foldl_cons]
      exact le_trans (le_max_right a b) (le_foldl_max bs (max a b))
    · exact ih (max a b) x h1

end activity

end RunningTracker

namespace RunningTracker

open activity

/-! ### Summarizer pipeline: settled properties -/

/-- C2, counterexample: on the empty sample sequence the summarizer does
not produce any summary value — the code unwraps
`heart_rates.iter().max()`, which is `None`, and panics — so there is no
`EmptyInput` outcome and in particular no zero-valued summary. -/
theorem empty_input_panics :
    create_heart_rate_summary [] = none ∧
      create_heart_rate_summary [] ≠ some ⟨0, 0, []⟩ :=
  ⟨rfl, by decide⟩

/-- C2 (amended): on the empty sample sequence the summarizer crashes (the
`unwrap` of the empty maximum panics) instead of returning an
`EmptyInput`/zero-valued outcome; a document with a lap whose trackpoint
list is empty makes the whole of `collect_summary` panic the same way. -/
theorem empty_input_crash (i : String) (rest : List activity.Activity) :
    create_heart_rate_summary [] = none ∧
      activity.collect_summary ⟨⟨⟨i, some ⟨⟨[]⟩⟩⟩ :: rest⟩⟩ = none :=
  ⟨rfl, rfl⟩

/-- C3, counterexample: on a parsed document whose single activity has no
lap, the summarization step of `fetch_latest_run_activity` panics —
`collect_summary` returns the absent-lap outcome `None`, and the caller
unwraps it with `expect` — so the claimed zero-valued
`HeartRateSummary{average: 0, max: 0, []}` result is never produced. -/
theorem absent_lap_pipeline_panics :
    run_activity_summary ⟨⟨[⟨"55326309608", none⟩]⟩⟩ = none ∧
      activity.collect_summary ⟨⟨[⟨"55326309608", none⟩]⟩⟩ = some none :=
  ⟨rfl, rfl⟩

/-- C3 (amended): for every document whose first activity has no lap,
`collect_summary` itself raises no error and returns the explicit
"no detail available" outcome, but the caller unwraps that outcome with
`expect("Failed to parse activity log")`, so the pipeline panics and no
zero-valued summary is built. -/
theorem absent_lap_behavior (i : String) (rest : List activity.Activity) :
    activity.collect_summary ⟨⟨⟨i, none⟩ :: rest⟩⟩ = some none ∧
      run_activity_summary ⟨⟨⟨i, none⟩ :: rest⟩⟩ = none :=
  ⟨rfl, rfl⟩

/-- C10: `collect_summary` consults only the first activity element of the
parsed document — the laps and trackpoints of all later activity elements
never affect the result — and on a document whose activity list is empty
it does not produce a value (the code's `activity.get(0).unwrap()`
panics). -/
theorem collect_summary_first_only (a : activity.Activity)
    (rest rest₂ : List activity.Activity) :
    activity.collect_summary ⟨⟨a :: rest⟩⟩ = activity.collect_summary ⟨⟨a :: rest₂⟩⟩ ∧
      activity.collect_summary ⟨⟨[]⟩⟩ = none :=
  ⟨rfl, rfl⟩

/-- C5: bucket assignment is total and exclusive — `bucketOf` maps every
rate to exactly one of the three labels, tested in the fixed source order —
the label column of the details table is exactly the first-occurrence order
of the labels across the sample sequence, and each label's recorded count
is the number of samples assigned to it. -/
theorem bucket_histogram (hrs : List ℕ) :
    (∀ r : ℕ,
        (bucketOf r = "<115" ∨ bucketOf r = "-150" ∨ bucketOf r = ">150") ∧
          (r < 115 → bucketOf r = "<115") ∧
          (115 ≤ r → r < 150 → bucketOf r = "-150") ∧
          (150 ≤ r → bucketOf r = ">150")) ∧
      (collectDetails hrs).map Prod.fst = firstSeen (hrs.map bucketOf) ∧
      ∀ l, bucketCount (collectDetails hrs) l = hrs.countP (fun r => bucketOf r == l) := by
  refine ⟨?_, ?_, ?_⟩
  · intro r
    unfold bucketOf
    refine ⟨?_, ?_, ?_, ?_⟩ <;> split_ifs <;> simp <;> omega
  · exact (collectDetails_loop hrs []).1
  · intro l
    simpa [collectDetails, bucketCount] using (collectDetails_loop hrs []).2 l

/-- Witness for C5 at the demonstration rates: 100 is assigned the low
bucket, and the "-150" bucket counts exactly the samples assigned to it. -/
theorem bucket_histogram_witness :
    bucketOf 100 = "<115" ∧
      bucketCount (collectDetails demoRates) "-150"
        = demoRates.countP (fun r => bucketOf r == "-150") :=
  ⟨((bucket_histogram []).1 100).2.1 (by decide),
    (bucket_histogram demoRates).2.2 "-150"⟩

/-- C4: for every non-empty sample sequence the summary exists, its average
is the floor of the exact mean of the rates (the source's truncated `f32`
division), and its max is an observed rate that bounds all rates; on rates
`[100, 120, 160]` this gives average 126, max 160, and one sample in each
bucket. -/
theorem heart_rate_avg_max (hrs : List ℕ) (hne : hrs ≠ []) :
    (∃ s, create_heart_rate_summary hrs = some s ∧
        (s.average : ℤ) = ⌊(hrs.sum : ℚ) / (hrs.length : ℚ)⌋ ∧
        s.max ∈ hrs ∧ ∀ r ∈ hrs, r ≤ s.max) ∧
      create_heart_rate_summary demoRates
        = some ⟨126, 160, [("<115", 1), ("-150", 1), (">150", 1)]⟩ := by
  constructor
  · obtain ⟨a, as, rfl⟩ := List.exists_cons_of_ne_nil hne
    refine ⟨⟨(a :: as).sum / (a :: as).length, as.foldl max a, collectDetails (a :: as)⟩,
      rfl, ?_, foldl_max_mem as a, ?_⟩
    · have hfl := Rat.floor_intCast_div_natCast ((a :: as).sum : ℤ) (a :: as).length
      rw [show (((a :: as).sum : ℤ) : ℚ) = ((a :: as).sum : ℚ) from Int.cast_natCast _] at hfl
      rw [hfl]
      exact Int.natCast_div (a :: as).sum (a :: as).length
    · intro r hr
      rcases List.mem_cons.1 hr with h1 | h1
      · rw [h1]
        exact le_foldl_max as a
      · exact foldl_max_le as a r h1
  · decide

/-- Witness for C4 at the demonstration rates `[100, 120, 160]`. -/
theorem heart_rate_avg_max_witness :
    (∃ s, create_heart_rate_summary demoRates = some s ∧
        (s.average : ℤ) = ⌊(demoRates.sum : ℚ) / (demoRates.length : ℚ)⌋ ∧
        s.max ∈ demoRates ∧ ∀ r ∈ demoRates, r ≤ s.max) ∧
      create_heart_rate_summary demoRates
        = some ⟨126, 160, [("<115", 1), ("-150", 1), (">150", 1)]⟩ :=
  heart_rate_avg_max demoRates (by decide)

end RunningTracker

namespace RunningTracker

/-! ### Activity selector -/

theorem find_first_split {α : Type} (p : α → Bool) :
    ∀ (l : List α) (a : α), l.find? p = some a →
      p a = true ∧ ∃ l₁ l₂, l = l₁ ++ a :: l₂ ∧ ∀ b ∈ l₁, p b = false := by
  intro l
  induction l with
  | nil => intro a h; cases h
  | cons x xs ih =>
    intro a h
    cases hp : p x with
    | true =>
      rw [List.find?_cons, hp] at h
      cases h
      exact ⟨hp, [], xs, rfl, by simp⟩
    | false =>
      rw [List.find?_cons, hp] at h
      obtain ⟨ha, l₁, l₂, heq, hall⟩ := ih a h
      refine ⟨ha, x :: l₁, l₂, by rw [heq]; rfl, ?_⟩
      intro b hb
      rcases List.mem_cons.1 hb with h1 | h1
      · rw [h1]; exact hp
      · exact hall b h1

/-- C9: the selector scans the given list in order (it does not re-sort):
whenever it returns an activity, that activity's name equals the target
category under exact string comparison and every list element before it has
a different name; it returns `none` exactly when no element's name equals
the target.  The embedding is a pure function, so the input list is not
mutated. -/
theorem select_run_activity_first_match (acts : List Activity) (category : String) :
    (∀ a, select_run_activity acts category = some a →
        a.activityName = category ∧
          ∃ l₁ l₂, acts = l₁ ++ a :: l₂ ∧ ∀ b ∈ l₁, b.activityName ≠ category) ∧
      (select_run_activity acts category = none ↔
        ∀ a ∈ acts, a.activityName ≠ category) := by
  constructor
  · intro a h
    obtain ⟨hp, l₁, l₂, heq, hall⟩ := find_first_split _ acts a h
    refine ⟨by simpa using hp, l₁, l₂, heq, fun b hb => by simpa using hall b hb⟩
  · rw [select_run_activity, List.find?_eq_none]
    simp

/-- Witness for C9: on `[demoWalk, demoRun, demoRun2]` the selector picks
`demoRun` — the first entry named "Run" — and everything before it is not a
run. -/
theorem select_run_activity_first_match_witness :
    demoRun.activityName = "Run" ∧
      ∃ l₁ l₂, [demoWalk, demoRun, demoRun2] = l₁ ++ demoRun :: l₂ ∧
        ∀ b ∈ l₁, b.activityName ≠ "Run" :=
  (select_run_activity_first_match [demoWalk, demoRun, demoRun2] "Run").1 demoRun (by decide)

end RunningTracker

namespace RunningTracker

/-! ### Token store: serialization round trip -/

theorem charsVal_append (xs : List Char) (c : Char) :
    charsVal (xs ++ [c]) = 10 * charsVal xs + (c.toNat - 48) := by
  simp [charsVal, List.foldl_append]

theorem decDigit_toNat (d : ℕ) (h : d < 10) : (decDigit d).toNat = 48 + d := by
  interval_cases d <;> decide

theorem natCharsAux_val (fuel : ℕ) :
    ∀ n, n < fuel → charsVal (natCharsAux fuel n) = n := by
  induction fuel with
  | zero => intro n h; omega
  | succ fuel ih =>
    intro n h
    by_cases h10 : n < 10
    · have : charsVal [decDigit n] = 10 * charsVal [] + ((decDigit n).toNat - 48) :=
        charsVal_append [] (decDigit n)
      simp only [natCharsAux, h10, if_true, if_pos h10]
      rw [this, decDigit_toNat n h10]
      simp [charsVal]
    · have hlt : n / 10 < n := Nat.div_lt_self (by omega) (by omega)
      simp only [natCharsAux, h10, if_false, if_neg h10]
      rw [charsVal_append, ih (n / 10) (by omega), decDigit_toNat (n % 10) (by omega)]
      omega

theorem charsVal_natChars (n : ℕ) : charsVal (natChars n) = n :=
  natCharsAux_val (n + 1) n (by omega)

theorem natCharsAux_digits (fuel : ℕ) :
    ∀ n c, c ∈ natCharsAux fuel n → ∃ d, d < 10 ∧ c = decDigit d := by
  induction fuel with
  | zero => intro n c h; simp [natCharsAux] at h
  | succ fuel ih =>
    intro n c h
    by_cases h10 : n < 10
    · simp only [natCharsAux, if_pos h10, List.mem_singleton] at h
      exact ⟨n, h10, h⟩
    · simp only [natCharsAux, if_neg h10, List.mem_append, List.mem_singleton] at h
      rcases h with h | h
      · exact ih _ c h
      · exact ⟨n % 10, by omega, h⟩

theorem natChars_no_quote (n : ℕ) : quoteC ∉ natChars n := by
  intro hmem
  obtain ⟨d, hd, hc⟩ := natCharsAux_digits (n + 1) n quoteC hmem
  have h1 : quoteC.toNat = 48 + d := by rw [hc]; exact decDigit_toNat d hd
  have h2 : quoteC.toNat = 34 := rfl
  omega

theorem natChars_ne_nil (n : ℕ) : natChars n ≠ [] := by
  unfold natChars
  by_cases h10 : n < 10 <;> simp [natCharsAux, h10]

theorem intChars_no_quote (z : ℤ) : quoteC ∉ intChars z := by
  intro hmem
  unfold intChars at hmem
  by_cases hz : z < 0
  · rw [if_pos hz] at hmem
    rcases List.mem_cons.1 hmem with h | h
    · have h1 : quoteC.toNat = 34 := rfl
      have h2 : ('-').toNat = 45 := rfl
      rw [h] at h1
      omega
    · exact natChars_no_quote _ h
  · rw [if_neg hz] at hmem
    exact natChars_no_quote _ hmem

theorem charsToInt_intChars (z : ℤ) : charsToInt (intChars z) = z := by
  unfold intChars
  by_cases hz : z < 0
  · rw [if_pos hz]
    have hstep : charsToInt ('-' :: natChars z.natAbs)
        = -(charsVal (natChars z.natAbs) : ℤ) := by
      rw [charsToInt, if_pos rfl]
    rw [hstep, charsVal_natChars]
    omega
  · rw [if_neg hz]
    cases hnc : natChars z.natAbs with
    | nil => exact absurd hnc (natChars_ne_nil _)
    | cons c cs =>
      have hdig : ∃ d, d < 10 ∧ c = decDigit d := by
        apply natCharsAux_digits (z.natAbs + 1) z.natAbs
        rw [show natCharsAux (z.natAbs + 1) z.natAbs = natChars z.natAbs from rfl, hnc]
        exact List.mem_cons_self c cs
      obtain ⟨d, hd, rfl⟩ := hdig
      have hne : ¬ decDigit d = '-' := by
        intro h
        have h1 : (decDigit d).toNat = 48 + d := decDigit_toNat d hd
        have h2 : ('-').toNat = 45 := rfl
        rw [h, h2] at h1
        omega
      rw [charsToInt, if_neg hne, ← hnc, charsVal_natChars]
      omega

theorem dropLit_append (pre rest : List Char) : dropLit pre (pre ++ rest) = some rest := by
  induction pre with
  | nil => rfl
  | cons c cs ih => simp [dropLit, ih]

theorem dropLit_self (l : List Char) : dropLit l l = some [] := by
  simpa using dropLit_append l []

theorem takeStr_append (s rest : List Char) : quoteC ∉ s →
    takeStr (s ++ quoteC :: rest) = some (s, rest) := by
  induction s with
  | nil => intro _; simp [takeStr]
  | cons c cs ih =>
    intro h
    have hc : ¬ c = quoteC := fun hq => h (by simp [hq])
    rw [List.cons_append]
    simp only [takeStr, if_neg hc, ih (fun hm => h (by simp [hm]))]
    rfl

theorem parseTokens_serializeTokens (t : AuthorizationTokens)
    (ha : quoteC ∉ t.access_token.data) (hr : quoteC ∉ t.refresh_token.data) :
    parseTokens (serializeTokens t) = some t := by
  have hshape : serializeTokens t
      = jsonPre ++ (t.access_token.data ++ quoteC ::
          (jsonMid1 ++ (t.refresh_token.data ++ quoteC ::
            (jsonMid2 ++ (intChars t.expires_at ++ quoteC :: jsonSuf))))) := by
    simp [serializeTokens]
  rw [hshape]
  simp only [parseTokens, dropLit_append, takeStr_append _ _ ha, takeStr_append _ _ hr,
    takeStr_append _ _ (intChars_no_quote t.expires_at), dropLit_self, Option.bind_some,
    Option.some_bind, Option.bind_eq_bind]
  rw [charsToInt_intChars]
  rfl

end RunningTracker

namespace RunningTracker

/-! ### Token lifecycle: settled properties -/

/-- C7: when the stored file holds a token whose `expires_at` lies more
than 60 seconds past the current time, `access_token` returns exactly that
token's access token, issues no network request at all, and leaves the
credentials file untouched. -/
theorem token_reuse (env : TokenEnv) (file : Option (List Char))
    (t : AuthorizationTokens) (hload : load_tokens file = some t)
    (hfresh : env.now + 60 < t.expires_at) :
    access_token env file = ⟨Except.ok (some t.access_token), file, []⟩ := by
  simp [access_token, hload, hfresh]

/-- Witness for C7: a concrete file holding `demoStoredTokens` (expiry
5000) read at time 50 is reused unchanged, with no network calls. -/
theorem token_reuse_witness :
    load_tokens (some (serializeTokens demoStoredTokens)) = some demoStoredTokens ∧
      freshEnv.now + 60 < demoStoredTokens.expires_at ∧
      access_token freshEnv (some (serializeTokens demoStoredTokens))
        = ⟨Except.ok (some demoStoredTokens.access_token),
            some (serializeTokens demoStoredTokens), []⟩ :=
  ⟨by decide, by decide,
    token_reuse freshEnv (some (serializeTokens demoStoredTokens)) demoStoredTokens
      (by decide) (by decide)⟩

/-- C8, counterexample: start from a file holding the stale
`staleLongTokens` (long token strings) and let the refresh succeed with the
much shorter `shortResponse`.  `access_token` writes the new record over
the old one without truncating, so trailing bytes of the old record are
left behind: the file afterwards is not the new token's record, and a
subsequent `load_tokens` fails outright instead of returning the refreshed
token. -/
theorem token_refresh_leftover :
    load_tokens (access_token refreshEnvShort
        (some (serializeTokens staleLongTokens))).file = none ∧
      (access_token refreshEnvShort (some (serializeTokens staleLongTokens))).file
        ≠ some (serializeTokens
            (from_authorization_response refreshEnvShort.now shortResponse)) :=
  ⟨by decide, by decide⟩

/-- C8 (amended): assume the stored file parses to a token `t` that is
within the 60-second expiry margin, the refresh succeeds with response `r`
(quote-free token strings), and — the condition the counterexample forces —
the new serialized record is at least as long as the old file content.
Then `access_token` persists exactly the new token's record (the old
refresh token is discarded with the rest of the old record), a subsequent
load returns the refreshed token, and the only network call is the
refresh.  Without the length condition the non-truncating
`store_tokens` write leaves trailing old bytes behind and the subsequent
load fails, so the persistence is not atomic in general. -/
theorem token_refresh_persists (env : TokenEnv) (content : List Char)
    (t : AuthorizationTokens) (r : AuthorizationResponse)
    (hload : parseTokens content = some t)
    (hstale : ¬ env.now + 60 < t.expires_at)
    (hrefresh : env.refreshResult = Except.ok (some r))
    (ha : quoteC ∉ r.access_token.data) (hr : quoteC ∉ r.refresh_token.data)
    (hlen : content.length
      ≤ (serializeTokens (from_authorization_response env.now r)).length) :
    access_token env (some content)
        = ⟨Except.ok (some r.access_token),
            some (serializeTokens (from_authorization_response env.now r)),
            [NetCall.refreshCall t.refresh_token]⟩ ∧
      load_tokens (some (serializeTokens (from_authorization_response env.now r)))
        = some (from_authorization_response env.now r) := by
  constructor
  · have hstore : store_tokens (some content) (from_authorization_response env.now r)
        = serializeTokens (from_authorization_response env.now r) := by
      simp [store_tokens, List.drop_eq_nil_of_le hlen]
    have hproj : (from_authorization_response env.now r).access_token = r.access_token := rfl
    simp [access_token, load_tokens, hload, hstale, hrefresh, hstore, hproj]
  · exact parseTokens_serializeTokens _ ha hr

set_option maxRecDepth 4000 in
/-- Witness for C8: the stale short token is refreshed by the longer
`longResponse`; the file afterwards holds exactly the new record and loads
back to the new token. -/
theorem token_refresh_persists_witness :
    access_token refreshEnvLong (some (serializeTokens staleShortTokens))
        = ⟨Except.ok (some longResponse.access_token),
            some (serializeTokens
              (from_authorization_response refreshEnvLong.now longResponse)),
            [NetCall.refreshCall staleShortTokens.refresh_token]⟩ ∧
      load_tokens (some (serializeTokens
          (from_authorization_response refreshEnvLong.now longResponse)))
        = some (from_authorization_response refreshEnvLong.now longResponse) :=
  token_refresh_persists refreshEnvLong (serializeTokens staleShortTokens)
    staleShortTokens longResponse (by decide) (by decide) rfl
    (by decide) (by decide) (by decide)

end RunningTracker
